import Mathlib

/-!
Shallow embedding of the `ippool` allocator (src/src/ippool.rs together with
the HTTP handler glue in src/src/handlers.rs).

The Rust `IpPoolInner` state is modelled as a Lean structure; the two
`HashMap<String, String>` fields are modelled as association lists whose
insert replaces any existing binding of the key (as `HashMap::insert` does),
and the `Vec<String>` free list is a Lean `List String` with `remove(0)`
as taking the head and `push` as appending at the back.  `u8`/`usize`
quantities are `Nat` (the program only ever uses 2, 254 and list lengths,
all far from overflow), the `f64` usage percentage is modelled as `ℚ`, and
the `serde_json::Value` returned by `get_stats` is a list of key/value
pairs.  Each fallible Rust method returns `Except IpPoolError _` paired
with the post-state.
-/

set_option maxRecDepth 40000

namespace IpPoolModel

/-- Error type of src/src/ippool.rs (`IpPoolError`). -/
inductive IpPoolError where
  | NoAvailableIps
  | IpNotFound
  | InvalidIp
deriving DecidableEq, Repr

/-- Allocation record of src/src/ippool.rs (`IpAllocation`). -/
structure IpAllocation where
  ip : String
  vm_id : String
  hostname : Option String
deriving DecidableEq, Repr

/-- Mutable allocator state of src/src/ippool.rs (`IpPoolInner`).  The two
hash maps are association lists, the free `Vec` is a list. -/
structure IpPoolInner where
  network : String
  gateway : String
  start : Nat
  «end» : Nat
  allocated : List (String × String)
  vm_to_ip : List (String × String)
  available : List String
deriving DecidableEq, Repr

/-- `HashMap::get`: first binding of the key in the association list. -/
def lookupKey (k : String) : List (String × String) → Option String
  | [] => none
  | p :: t => if p.1 = k then some p.2 else lookupKey k t

/-- `HashMap::remove`: drop every binding of the key. -/
def eraseKey (k : String) (m : List (String × String)) : List (String × String) :=
  m.filter (fun p => decide (p.1 ≠ k))

/-- `HashMap::insert`: bind the key, replacing any previous binding. -/
def insertKey (k v : String) (m : List (String × String)) : List (String × String) :=
  (k, v) :: eraseKey k m

/-- Key list of an association list. -/
def keysOf (m : List (String × String)) : List String :=
  m.map Prod.fst

/-- The list of addresses `format!("{}.{}", network, i)` for `i` in the
inclusive Rust range `start..=stop` (empty when `start > stop`). -/
def rangeList (network : String) (start stop : Nat) : List String :=
  (List.range' start (stop + 1 - start)).map (fun i => network ++ "." ++ toString i)

/-- Constructor `IpPool::new`: host range hardcoded to 2..=254, all
addresses free, both maps empty. -/
def IpPool.new (network gateway : String) : IpPoolInner :=
  { network := network
    gateway := gateway
    start := 2
    «end» := 254
    allocated := []
    vm_to_ip := []
    available := rangeList network 2 254 }

/-- Method `IpPool::allocate_ip`.  Idempotent per owner; otherwise takes the
FIRST element of the free vector (`available.remove(0)`). -/
def allocate_ip (s : IpPoolInner) (vm_id : String) :
    Except IpPoolError String × IpPoolInner :=
  match lookupKey vm_id s.vm_to_ip with
  | some ip => (Except.ok ip, s)
  | none =>
    match s.available with
    | [] => (Except.error IpPoolError.NoAvailableIps, s)
    | ip :: rest =>
      (Except.ok ip,
        { s with
          available := rest
          allocated := insertKey ip vm_id s.allocated
          vm_to_ip := insertKey vm_id ip s.vm_to_ip })

/-- Method `IpPool::release_ip` (release by owner).  Pushes the released
address at the BACK of the free vector. -/
def release_ip (s : IpPoolInner) (vm_id : String) :
    Except IpPoolError Unit × IpPoolInner :=
  match lookupKey vm_id s.vm_to_ip with
  | none => (Except.error IpPoolError.IpNotFound, s)
  | some ip =>
    (Except.ok (),
      { s with
        allocated := eraseKey ip s.allocated
        vm_to_ip := eraseKey vm_id s.vm_to_ip
        available := s.available ++ [ip] })

/-- Numeric value of a digit string (`'2'.toNat - 48 = 2` and so on). -/
def octetVal (cs : List Char) : Nat :=
  cs.foldl (fun n c => 10 * n + (c.toNat - 48)) 0

/-- One decimal octet as accepted by Rust's `Ipv4Addr` parser: nonempty,
all digits, no leading zero (except the single digit 0), value at most
255. -/
def isValidOctet (cs : List Char) : Bool :=
  match cs with
  | [] => false
  | c :: rest =>
    c.isDigit && rest.all (fun d => d.isDigit) &&
      (c ≠ '0' || rest.isEmpty) && decide (octetVal (c :: rest) ≤ 255)

/-- Split a character list at every dot, like `str::split('.')`. -/
def splitOnDot : List Char → List (List Char)
  | [] => [[]]
  | c :: t =>
    if c = '.' then [] :: splitOnDot t
    else
      match splitOnDot t with
      | [] => [[c]]
      | h :: r => (c :: h) :: r

/-- Success of `ip.parse::<Ipv4Addr>()`: exactly four valid dot-separated
octets. -/
def parsesAsIpv4 (s : String) : Bool :=
  match splitOnDot s.data with
  | [a, b, c, d] => isValidOctet a && isValidOctet b && isValidOctet c && isValidOctet d
  | _ => false

/-- Associated function `IpPool::is_valid_ip`: the string parses as an IPv4
literal and starts with `network` followed by a dot. -/
def is_valid_ip (network ip : String) : Bool :=
  parsesAsIpv4 ip && (network ++ ".").data.isPrefixOf ip.data

/-- Method `IpPool::release_ip_by_address`.  Validates the literal first,
then requires it to be currently allocated; pushes it at the BACK of the
free vector. -/
def release_ip_by_address (s : IpPoolInner) (ip : String) :
    Except IpPoolError Unit × IpPoolInner :=
  if is_valid_ip s.network ip then
    match lookupKey ip s.allocated with
    | none => (Except.error IpPoolError.IpNotFound, s)
    | some vm_id =>
      (Except.ok (),
        { s with
          allocated := eraseKey ip s.allocated
          vm_to_ip := eraseKey vm_id s.vm_to_ip
          available := s.available ++ [ip] })
  else (Except.error IpPoolError.InvalidIp, s)

/-- Method `IpPool::get_allocation`: read-only lookup; the returned record
always carries `hostname: None`. -/
def get_allocation (s : IpPoolInner) (vm_id : String) :
    Except IpPoolError IpAllocation :=
  match lookupKey vm_id s.vm_to_ip with
  | none => Except.error IpPoolError.IpNotFound
  | some ip => Except.ok { ip := ip, vm_id := vm_id, hostname := none }

/-- Method `IpPool::list_allocations`: snapshot of the allocated map, every
record with `hostname: None`. -/
def list_allocations (s : IpPoolInner) : List IpAllocation :=
  s.allocated.map (fun p => { ip := p.1, vm_id := p.2, hostname := none })

/-- Minimal model of the `serde_json::Value`s appearing in `get_stats`. -/
inductive JVal where
  | jstr : String → JVal
  | jnat : Nat → JVal
  | jrat : ℚ → JVal
deriving DecidableEq, Repr

/-- Method `IpPool::get_stats`: the JSON object it builds, as an ordered
key/value list.  The `f64` usage ratio is modelled exactly as a rational. -/
def get_stats (s : IpPoolInner) : List (String × JVal) :=
  let total := s.«end» - s.start + 1
  let allocated := s.allocated.length
  let available := s.available.length
  let usage : ℚ := ((allocated : ℚ) / (total : ℚ)) * 100
  [("network", JVal.jstr (s.network ++ ".0/24")),
   ("gateway", JVal.jstr s.gateway),
   ("total", JVal.jnat total),
   ("allocated", JVal.jnat allocated),
   ("available", JVal.jnat available),
   ("usage", JVal.jrat usage)]

/-- Lookup of a field in a modelled JSON object. -/
def jsonField (k : String) (o : List (String × JVal)) : Option JVal :=
  lookupKey' k o
where
  lookupKey' (k : String) : List (String × JVal) → Option JVal
    | [] => none
    | p :: t => if p.1 = k then some p.2 else lookupKey' k t

/-- Method `IpPool::clear` (the reset operation): empty both maps and
regenerate the full free range from the stored configuration. -/
def clear (s : IpPoolInner) : IpPoolInner :=
  { s with
    allocated := []
    vm_to_ip := []
    available := rangeList s.network s.start s.«end» }

/-- The full configured address range of a pool state. -/
def fullRange (s : IpPoolInner) : List String :=
  rangeList s.network s.start s.«end»

/-- HTTP handler response shape for POST /ip/allocate
(src/src/handlers.rs, `AllocateIpResponse`). -/
structure AllocateIpResponse where
  ip : String
  vm_id : String
  gateway : String
  network : String
  hostname : Option String
deriving DecidableEq, Repr

/-- HTTP handler `handlers::allocate_ip`: calls the pool, then echoes the
request's optional hostname into the response; the hostname is never given
to the pool. -/
def handlerAllocate (s : IpPoolInner) (vm_id : String) (hostname : Option String) :
    Except IpPoolError AllocateIpResponse × IpPoolInner :=
  match allocate_ip s vm_id with
  | (Except.ok ip, s') =>
    (Except.ok
      { ip := ip
        vm_id := vm_id
        gateway := s'.gateway
        network := s'.network ++ ".0/24"
        hostname := hostname }, s')
  | (Except.error e, s') => (Except.error e, s')

/-- One externally invokable mutating operation. -/
inductive Op where
  | alloc (vm_id : String)
  | rel (vm_id : String)
  | relAddr (ip : String)
  | reset
deriving DecidableEq, Repr

/-- State transition of one operation (result discarded). -/
def applyOp (s : IpPoolInner) : Op → IpPoolInner
  | Op.alloc vm_id => (allocate_ip s vm_id).2
  | Op.rel vm_id => (release_ip s vm_id).2
  | Op.relAddr ip => (release_ip_by_address s ip).2
  | Op.reset => clear s

/-- Run a sequence of operations from a state. -/
def run (s : IpPoolInner) (ops : List Op) : IpPoolInner :=
  ops.foldl applyOp s

/-- Run a sequence of allocations (results discarded). -/
def allocRun (s : IpPoolInner) (owners : List String) : IpPoolInner :=
  owners.foldl (fun t vm => (allocate_ip t vm).2) s

/-- Some allocation inside the operation sequence, executed from `s`,
returns the address `x`. -/
def allocReturnsIn (s : IpPoolInner) (ops : List Op) (x : String) : Prop :=
  ∃ pre vm post, ops = pre ++ Op.alloc vm :: post ∧
    (allocate_ip (run s pre) vm).1 = Except.ok x

instance {ε α : Type} [DecidableEq ε] [DecidableEq α] : DecidableEq (Except ε α) := fun x y =>
  match x, y with
  | Except.ok a, Except.ok b =>
    if h : a = b then isTrue (by rw [h]) else isFalse (by simp [h])
  | Except.error a, Except.error b =>
    if h : a = b then isTrue (by rw [h]) else isFalse (by simp [h])
  | Except.ok _, Except.error _ => isFalse (by simp)
  | Except.error _, Except.ok _ => isFalse (by simp)

/-- The internal consistency invariant of a pool state: the two maps are
mutually inverse, and the free list together with the allocated keys is a
permutation of the (duplicate-free) configured range. -/
structure Inv (s : IpPoolInner) : Prop where
  inv1 : ∀ a o, lookupKey a s.allocated = some o → lookupKey o s.vm_to_ip = some a
  inv2 : ∀ o a, lookupKey o s.vm_to_ip = some a → lookupKey a s.allocated = some o
  perm : (s.available ++ keysOf s.allocated).Perm (fullRange s)
  nodupRange : (fullRange s).Nodup

end IpPoolModel

namespace IpPoolModel

/-! Association-list lemmas. -/

theorem lookupKey_eq_none {k : String} {m : List (String × String)} :
    lookupKey k m = none ↔ k ∉ keysOf m := by
  induction m with
  | nil => simp [lookupKey, keysOf]
  | cons p t ih =>
    by_cases h : p.1 = k
    · simp [lookupKey, keysOf, h]
    · simp [lookupKey, keysOf, h, ih, Ne.symm h]

theorem mem_keys_of_lookup {k v : String} {m : List (String × String)}
    (h : lookupKey k m = some v) : k ∈ keysOf m := by
  by_contra hk
  rw [← lookupKey_eq_none] at hk
  rw [h] at hk
  exact Option.noConfusion hk

theorem lookupKey_eraseKey {a k : String} {m : List (String × String)} :
    lookupKey a (eraseKey k m) = if a = k then none else lookupKey a m := by
  induction m with
  | nil => simp [lookupKey, eraseKey]
  | cons p t ih =>
    simp only [eraseKey, List.filter_cons] at ih ⊢
    by_cases hp : p.1 = k
    · simp only [hp, ne_eq, not_true_eq_false, decide_False, Bool.false_eq_true, if_false]
      rw [ih]
      by_cases ha : a = k
      · simp [ha]
      · have hpa : p.1 ≠ a := fun h => ha (h ▸ hp)
        simp [ha, lookupKey, hpa]
    · simp only [ne_eq, hp, not_false_eq_true, decide_True, if_true]
      by_cases hpa : p.1 = a
      · have ha : a ≠ k := fun heq => hp (hpa.trans heq)
        simp [lookupKey, hpa, ha]
      · simp only [lookupKey, hpa, if_false]
        rw [ih]

theorem lookupKey_insertKey {a k v : String} {m : List (String × String)} :
    lookupKey a (insertKey k v m) = if a = k then some v else lookupKey a m := by
  by_cases h : a = k
  · simp [insertKey, lookupKey, h]
  · have h1 : lookupKey a (insertKey k v m) = lookupKey a (eraseKey k m) := by
      simp only [insertKey, lookupKey]
      rw [if_neg (Ne.symm h)]
    rw [h1, lookupKey_eraseKey, if_neg h, if_neg h]

theorem eraseKey_of_not_mem {k : String} {m : List (String × String)}
    (h : k ∉ keysOf m) : eraseKey k m = m := by
  induction m with
  | nil => rfl
  | cons p t ih =>
    simp only [keysOf, List.map_cons, List.mem_cons, not_or] at h
    have hp : p.1 ≠ k := fun hk => h.1 (hk ▸ rfl)
    simp only [eraseKey, List.filter_cons, ne_eq, hp, not_false_eq_true, decide_True, if_true]
    have ht := ih h.2
    simp only [eraseKey] at ht
    rw [ht]

theorem keysOf_eraseKey {k : String} {m : List (String × String)} :
    keysOf (eraseKey k m) = (keysOf m).filter (fun a => decide (a ≠ k)) := by
  induction m with
  | nil => rfl
  | cons p t ih =>
    by_cases hp : p.1 = k
    · simp only [eraseKey, keysOf, List.filter_cons, List.map_cons, ne_eq, hp,
        not_true_eq_false, decide_False, Bool.false_eq_true, if_false] at ih ⊢
      exact ih
    · simp only [eraseKey, keysOf, List.filter_cons, List.map_cons, ne_eq, hp,
        not_false_eq_true, decide_True, if_true] at ih ⊢
      rw [ih]

theorem keys_perm_cons_erase {k v : String} {m : List (String × String)}
    (hnd : (keysOf m).Nodup) (h : lookupKey k m = some v) :
    (keysOf m).Perm (k :: keysOf (eraseKey k m)) := by
  have hk : k ∈ keysOf m := mem_keys_of_lookup h
  rw [keysOf_eraseKey]
  have herase : (keysOf m).erase k = (keysOf m).filter (fun a => a != k) :=
    hnd.erase_eq_filter k
  have hfilter : (keysOf m).filter (fun a => a != k)
      = (keysOf m).filter (fun a => decide (a ≠ k)) := by
    apply List.filter_congr
    intro x _
    by_cases hx : x = k <;> simp [hx]
  rw [← hfilter, ← herase]
  exact List.perm_cons_erase hk

/-! Distinctness of the generated address range. -/

theorem string_append_cancel {p a b : String} (h : p ++ a = p ++ b) : a = b := by
  apply String.ext
  have h2 := congrArg String.data h
  rw [String.data_append, String.data_append] at h2
  exact List.append_cancel_left h2

theorem nodup_toString_range'_2_253 :
    ((List.range' 2 253).map (fun i => toString i)).Nodup := by
  apply List.Nodup.of_map (fun t : String => octetVal t.data)
  have h0 : (((List.range' 2 253).map (fun i => toString i)).map
      (fun t : String => octetVal t.data)) = List.range' 2 253 := by decide
  rw [h0]
  exact List.nodup_range' 2 253

theorem nodup_rangeList_2_254 (net : String) : (rangeList net 2 254).Nodup := by
  have heq : rangeList net 2 254
      = ((List.range' 2 253).map (fun i => toString i)).map (fun d => net ++ "." ++ d) := by
    rw [List.map_map]
    rfl
  rw [heq]
  apply List.Nodup.map _ nodup_toString_range'_2_253
  intro a b hab
  exact string_append_cancel hab

theorem nodup_toString_range253 :
    ((List.range 253).map (fun i => toString i)).Nodup := by
  apply List.Nodup.of_map (fun t : String => octetVal t.data)
  have h0 : (((List.range 253).map (fun i => toString i)).map
      (fun t : String => octetVal t.data)) = List.range 253 := by decide
  rw [h0]
  exact List.nodup_range 253

/-! Case characterizations of the three mutating methods. -/

theorem allocate_ip_of_mem {s : IpPoolInner} {vm ip : String}
    (h : lookupKey vm s.vm_to_ip = some ip) :
    allocate_ip s vm = (Except.ok ip, s) := by
  simp [allocate_ip, h]

theorem allocate_ip_of_empty {s : IpPoolInner} {vm : String}
    (h : lookupKey vm s.vm_to_ip = none) (h2 : s.available = []) :
    allocate_ip s vm = (Except.error IpPoolError.NoAvailableIps, s) := by
  simp [allocate_ip, h, h2]

theorem allocate_ip_fresh {s : IpPoolInner} {vm ip : String} {rest : List String}
    (h : lookupKey vm s.vm_to_ip = none) (h2 : s.available = ip :: rest) :
    allocate_ip s vm = (Except.ok ip,
      { s with
        available := rest
        allocated := insertKey ip vm s.allocated
        vm_to_ip := insertKey vm ip s.vm_to_ip }) := by
  simp [allocate_ip, h, h2]

theorem release_ip_of_none {s : IpPoolInner} {vm : String}
    (h : lookupKey vm s.vm_to_ip = none) :
    release_ip s vm = (Except.error IpPoolError.IpNotFound, s) := by
  simp [release_ip, h]

theorem release_ip_of_some {s : IpPoolInner} {vm ip : String}
    (h : lookupKey vm s.vm_to_ip = some ip) :
    release_ip s vm = (Except.ok (),
      { s with
        allocated := eraseKey ip s.allocated
        vm_to_ip := eraseKey vm s.vm_to_ip
        available := s.available ++ [ip] }) := by
  simp [release_ip, h]

theorem release_addr_of_invalid {s : IpPoolInner} {ip : String}
    (h : is_valid_ip s.network ip = false) :
    release_ip_by_address s ip = (Except.error IpPoolError.InvalidIp, s) := by
  simp [release_ip_by_address, h]

theorem release_addr_of_none {s : IpPoolInner} {ip : String}
    (h : is_valid_ip s.network ip = true) (h2 : lookupKey ip s.allocated = none) :
    release_ip_by_address s ip = (Except.error IpPoolError.IpNotFound, s) := by
  simp [release_ip_by_address, h, h2]

theorem release_addr_of_some {s : IpPoolInner} {ip vm : String}
    (h : is_valid_ip s.network ip = true) (h2 : lookupKey ip s.allocated = some vm) :
    release_ip_by_address s ip = (Except.ok (),
      { s with
        allocated := eraseKey ip s.allocated
        vm_to_ip := eraseKey vm s.vm_to_ip
        available := s.available ++ [ip] }) := by
  simp [release_ip_by_address, h, h2]

/-! Invariant preservation. -/

theorem Inv.nodupAvailKeys {s : IpPoolInner} (hs : Inv s) :
    (s.available ++ keysOf s.allocated).Nodup :=
  hs.perm.symm.nodup hs.nodupRange

theorem Inv.nodupAvailable {s : IpPoolInner} (hs : Inv s) : s.available.Nodup :=
  hs.nodupAvailKeys.of_append_left

theorem Inv.nodupKeys {s : IpPoolInner} (hs : Inv s) : (keysOf s.allocated).Nodup :=
  (List.nodup_append.mp hs.nodupAvailKeys).2.1

theorem Inv.not_mem_keys {s : IpPoolInner} (hs : Inv s) {a : String}
    (ha : a ∈ s.available) : a ∉ keysOf s.allocated :=
  fun hk => (List.nodup_append.mp hs.nodupAvailKeys).2.2 ha hk

theorem inv_new (net gw : String) : Inv (IpPool.new net gw) := by
  constructor
  · intro a o hao
    simp [IpPool.new, lookupKey] at hao
  · intro o a hoa
    simp [IpPool.new, lookupKey] at hoa
  · simp [IpPool.new, keysOf, fullRange]
  · exact nodup_rangeList_2_254 net

theorem inv_allocate {s : IpPoolInner} (hs : Inv s) (vm : String) :
    Inv (allocate_ip s vm).2 := by
  rcases h : lookupKey vm s.vm_to_ip with _ | ip
  · rcases h2 : s.available with _ | ⟨ip, rest⟩
    · rw [allocate_ip_of_empty h h2]
      exact hs
    · rw [allocate_ip_fresh h h2]
      have hipav : ip ∈ s.available := by rw [h2]; exact List.mem_cons_self _ _
      have hipk : ip ∉ keysOf s.allocated := hs.not_mem_keys hipav
      refine ⟨?_, ?_, ?_, ?_⟩
      · intro a o hao
        dsimp only at hao ⊢
        rw [lookupKey_insertKey] at hao
        by_cases haip : a = ip
        · rw [if_pos haip] at hao
          cases hao
          rw [lookupKey_insertKey, if_pos rfl, haip]
        · rw [if_neg haip] at hao
          have h1 := hs.inv1 a o hao
          rw [lookupKey_insertKey]
          by_cases hov : o = vm
          · exfalso
            rw [hov, h] at h1
            exact Option.noConfusion h1
          · rw [if_neg hov]
            exact h1
      · intro o a hoa
        dsimp only at hoa ⊢
        rw [lookupKey_insertKey] at hoa
        by_cases hov : o = vm
        · rw [if_pos hov] at hoa
          cases hoa
          rw [lookupKey_insertKey, if_pos rfl, hov]
        · rw [if_neg hov] at hoa
          have h2' := hs.inv2 o a hoa
          rw [lookupKey_insertKey]
          by_cases haip : a = ip
          · exfalso
            exact hipk (haip ▸ mem_keys_of_lookup h2')
          · rw [if_neg haip]
            exact h2'
      · dsimp only [fullRange]
        have hkeys : keysOf (insertKey ip vm s.allocated) = ip :: keysOf s.allocated := by
          rw [insertKey, eraseKey_of_not_mem hipk]
          rfl
        rw [hkeys]
        refine List.Perm.trans List.perm_middle ?_
        have : ip :: (rest ++ keysOf s.allocated)
            = (ip :: rest) ++ keysOf s.allocated := rfl
        rw [this, ← h2]
        exact hs.perm
      · exact hs.nodupRange
  · rw [allocate_ip_of_mem h]
    exact hs

theorem inv_release {s : IpPoolInner} (hs : Inv s) (vm : String) :
    Inv (release_ip s vm).2 := by
  rcases h : lookupKey vm s.vm_to_ip with _ | ip
  · rw [release_ip_of_none h]
    exact hs
  · rw [release_ip_of_some h]
    have hA : lookupKey ip s.allocated = some vm := hs.inv2 vm ip h
    have hperm := keys_perm_cons_erase hs.nodupKeys hA
    refine ⟨?_, ?_, ?_, ?_⟩
    · intro a o hao
      dsimp only at hao ⊢
      rw [lookupKey_eraseKey] at hao
      by_cases haip : a = ip
      · rw [if_pos haip] at hao
        exact Option.noConfusion hao
      · rw [if_neg haip] at hao
        have h1 := hs.inv1 a o hao
        rw [lookupKey_eraseKey]
        by_cases hov : o = vm
        · exfalso
          rw [hov, h] at h1
          cases h1
          exact haip rfl
        · rw [if_neg hov]
          exact h1
    · intro o a hoa
      dsimp only at hoa ⊢
      rw [lookupKey_eraseKey] at hoa
      by_cases hov : o = vm
      · rw [if_pos hov] at hoa
        exact Option.noConfusion hoa
      · rw [if_neg hov] at hoa
        have h2 := hs.inv2 o a hoa
        rw [lookupKey_eraseKey]
        by_cases haip : a = ip
        · exfalso
          rw [haip, hA] at h2
          cases h2
          exact hov rfl
        · rw [if_neg haip]
          exact h2
    · dsimp only [fullRange]
      have hassoc : (s.available ++ [ip]) ++ keysOf (eraseKey ip s.allocated)
          = s.available ++ (ip :: keysOf (eraseKey ip s.allocated)) := by
        rw [List.append_assoc]
        rfl
      rw [hassoc]
      refine List.Perm.trans (List.Perm.append_left s.available hperm.symm) hs.perm
    · exact hs.nodupRange

theorem inv_release_addr {s : IpPoolInner} (hs : Inv s) (ip : String) :
    Inv (release_ip_by_address s ip).2 := by
  rcases hv : is_valid_ip s.network ip with _ | _
  · rw [release_addr_of_invalid hv]
    exact hs
  · rcases h : lookupKey ip s.allocated with _ | vm
    · rw [release_addr_of_none hv h]
      exact hs
    · rw [release_addr_of_some hv h]
      have hV : lookupKey vm s.vm_to_ip = some ip := hs.inv1 ip vm h
      have hperm := keys_perm_cons_erase hs.nodupKeys h
      refine ⟨?_, ?_, ?_, ?_⟩
      · intro a o hao
        dsimp only at hao ⊢
        rw [lookupKey_eraseKey] at hao
        by_cases haip : a = ip
        · rw [if_pos haip] at hao
          exact Option.noConfusion hao
        · rw [if_neg haip] at hao
          have h1 := hs.inv1 a o hao
          rw [lookupKey_eraseKey]
          by_cases hov : o = vm
          · exfalso
            rw [hov, hV] at h1
            cases h1
            exact haip rfl
          · rw [if_neg hov]
            exact h1
      · intro o a hoa
        dsimp only at hoa ⊢
        rw [lookupKey_eraseKey] at hoa
        by_cases hov : o = vm
        · rw [if_pos hov] at hoa
          exact Option.noConfusion hoa
        · rw [if_neg hov] at hoa
          have h2 := hs.inv2 o a hoa
          rw [lookupKey_eraseKey]
          by_cases haip : a = ip
          · exfalso
            rw [haip, h] at h2
            cases h2
            exact hov rfl
          · rw [if_neg haip]
            exact h2
      · dsimp only [fullRange]
        have hassoc : (s.available ++ [ip]) ++ keysOf (eraseKey ip s.allocated)
            = s.available ++ (ip :: keysOf (eraseKey ip s.allocated)) := by
          rw [List.append_assoc]
          rfl
        rw [hassoc]
        refine List.Perm.trans (List.Perm.append_left s.available hperm.symm) hs.perm
      · exact hs.nodupRange

theorem inv_clear {s : IpPoolInner} (hs : Inv s) : Inv (clear s) := by
  refine ⟨?_, ?_, ?_, ?_⟩
  · intro a o hao
    simp [clear, lookupKey] at hao
  · intro o a hoa
    simp [clear, lookupKey] at hoa
  · simp [clear, keysOf, fullRange]
  · exact hs.nodupRange

theorem inv_applyOp {s : IpPoolInner} (hs : Inv s) (o : Op) : Inv (applyOp s o) := by
  cases o with
  | alloc vm => exact inv_allocate hs vm
  | rel vm => exact inv_release hs vm
  | relAddr ip => exact inv_release_addr hs ip
  | reset => exact inv_clear hs

theorem inv_run {s : IpPoolInner} (hs : Inv s) (ops : List Op) : Inv (run s ops) := by
  induction ops generalizing s with
  | nil => exact hs
  | cons o t ih => exact ih (inv_applyOp hs o)

theorem inv_reach (net gw : String) (ops : List Op) :
    Inv (run (IpPool.new net gw) ops) :=
  inv_run (inv_new net gw) ops

/-! Configuration fields are immutable after construction. -/

theorem applyOp_config (s : IpPoolInner) (o : Op) :
    (applyOp s o).network = s.network ∧ (applyOp s o).gateway = s.gateway ∧
    (applyOp s o).start = s.start ∧ (applyOp s o).«end» = s.«end» := by
  cases o with
  | alloc vm =>
    rcases hl : lookupKey vm s.vm_to_ip with _ | ip
    · rcases h2 : s.available with _ | ⟨ip, rest⟩
      · simp only [applyOp]
        rw [allocate_ip_of_empty hl h2]
        exact ⟨rfl, rfl, rfl, rfl⟩
      · simp only [applyOp]
        rw [allocate_ip_fresh hl h2]
        exact ⟨rfl, rfl, rfl, rfl⟩
    · simp only [applyOp]
      rw [allocate_ip_of_mem hl]
      exact ⟨rfl, rfl, rfl, rfl⟩
  | rel vm =>
    rcases hl : lookupKey vm s.vm_to_ip with _ | ip
    · simp only [applyOp]
      rw [release_ip_of_none hl]
      exact ⟨rfl, rfl, rfl, rfl⟩
    · simp only [applyOp]
      rw [release_ip_of_some hl]
      exact ⟨rfl, rfl, rfl, rfl⟩
  | relAddr ip =>
    rcases hv : is_valid_ip s.network ip with _ | _
    · simp only [applyOp]
      rw [release_addr_of_invalid hv]
      exact ⟨rfl, rfl, rfl, rfl⟩
    · rcases hl : lookupKey ip s.allocated with _ | vm
      · simp only [applyOp]
        rw [release_addr_of_none hv hl]
        exact ⟨rfl, rfl, rfl, rfl⟩
      · simp only [applyOp]
        rw [release_addr_of_some hv hl]
        exact ⟨rfl, rfl, rfl, rfl⟩
  | reset => exact ⟨rfl, rfl, rfl, rfl⟩

theorem run_config (s : IpPoolInner) (ops : List Op) :
    (run s ops).network = s.network ∧ (run s ops).gateway = s.gateway ∧
    (run s ops).start = s.start ∧ (run s ops).«end» = s.«end» := by
  induction ops generalizing s with
  | nil => exact ⟨rfl, rfl, rfl, rfl⟩
  | cons o t ih =>
    obtain ⟨h1, h2, h3, h4⟩ := applyOp_config s o
    obtain ⟨g1, g2, g3, g4⟩ := ih (applyOp s o)
    exact ⟨g1.trans h1, g2.trans h2, g3.trans h3, g4.trans h4⟩

/-! The claims. -/

/-- C2: after every sequence of allocate, releaseByOwner, releaseByAddress and
reset operations starting from a fresh pool, the address-to-owner map and the
owner-to-address map are inverses of each other, and the free list together
with the allocated addresses partitions the full configured range: their
union is the whole range and they do not overlap. -/
theorem C2_maps_inverse_and_partition (net gw : String) (ops : List Op) :
    (∀ a o, lookupKey a (run (IpPool.new net gw) ops).allocated = some o ↔
      lookupKey o (run (IpPool.new net gw) ops).vm_to_ip = some a) ∧
    (∀ a, a ∈ fullRange (run (IpPool.new net gw) ops) ↔
      (a ∈ (run (IpPool.new net gw) ops).available ∨
        a ∈ keysOf (run (IpPool.new net gw) ops).allocated)) ∧
    (∀ a, ¬(a ∈ (run (IpPool.new net gw) ops).available ∧
      a ∈ keysOf (run (IpPool.new net gw) ops).allocated)) := by
  have hs := inv_reach net gw ops
  refine ⟨fun a o => ⟨hs.inv1 a o, hs.inv2 o a⟩, fun a => ?_,
    fun a h => hs.not_mem_keys h.1 h.2⟩
  rw [← List.mem_append]
  exact hs.perm.mem_iff.symm

/-- C3: if an owner already holds an address, allocate returns that same
address and leaves the whole state unchanged, regardless of the free list
(in particular also when it is empty). -/
theorem C3_allocate_idempotent (s : IpPoolInner) (vm ip : String)
    (h : lookupKey vm s.vm_to_ip = some ip) :
    allocate_ip s vm = (Except.ok ip, s) :=
  allocate_ip_of_mem h

/-- C3 witness: an owner holding 10.0.0.2 in a pool whose free list is
EMPTY still gets 10.0.0.2 back, with the state untouched. -/
theorem C3_allocate_idempotent_witness :
    allocate_ip
      ⟨"10.0.0", "10.0.0.1", 2, 254, [("10.0.0.2", "vm-1")], [("vm-1", "10.0.0.2")], []⟩
      "vm-1"
      = (Except.ok "10.0.0.2",
        ⟨"10.0.0", "10.0.0.1", 2, 254, [("10.0.0.2", "vm-1")], [("vm-1", "10.0.0.2")], []⟩) :=
  C3_allocate_idempotent
    ⟨"10.0.0", "10.0.0.1", 2, 254, [("10.0.0.2", "vm-1")], [("vm-1", "10.0.0.2")], []⟩
    "vm-1" "10.0.0.2" (by decide)

/-- C6: whenever allocate, releaseByOwner or releaseByAddress returns an
error, the state after the call is exactly the state before it: no error
leaves a partial mutation behind. -/
theorem C6_errors_leave_state_unchanged (s : IpPoolInner) :
    (∀ vm e, (allocate_ip s vm).1 = Except.error e → (allocate_ip s vm).2 = s) ∧
    (∀ vm e, (release_ip s vm).1 = Except.error e → (release_ip s vm).2 = s) ∧
    (∀ ip e, (release_ip_by_address s ip).1 = Except.error e →
      (release_ip_by_address s ip).2 = s) := by
  refine ⟨?_, ?_, ?_⟩
  · intro vm e h
    rcases hl : lookupKey vm s.vm_to_ip with _ | ip
    · rcases h2 : s.available with _ | ⟨ip, rest⟩
      · rw [allocate_ip_of_empty hl h2]
      · rw [allocate_ip_fresh hl h2] at h
        exact absurd h (by simp)
    · rw [allocate_ip_of_mem hl]
  · intro vm e h
    rcases hl : lookupKey vm s.vm_to_ip with _ | ip
    · rw [release_ip_of_none hl]
    · rw [release_ip_of_some hl] at h
      exact absurd h (by simp)
  · intro ip e h
    rcases hv : is_valid_ip s.network ip with _ | _
    · rw [release_addr_of_invalid hv]
    · rcases hl : lookupKey ip s.allocated with _ | vm
      · rw [release_addr_of_none hv hl]
      · rw [release_addr_of_some hv hl] at h
        exact absurd h (by simp)

/-- C6 witness: releasing an owner that holds nothing on a fresh pool
errors and leaves the fresh pool unchanged. -/
theorem C6_errors_leave_state_unchanged_witness :
    (release_ip (IpPool.new "10.0.0" "10.0.0.1") "vm-1").2
      = IpPool.new "10.0.0" "10.0.0.1" :=
  (C6_errors_leave_state_unchanged (IpPool.new "10.0.0" "10.0.0.1")).2.1
    "vm-1" IpPoolError.IpNotFound (by decide)

/-- C8: getAllocation always reports `hostname = none` for an owner that
holds an address; the HTTP allocate handler only echoes the requested
hostname into its response and hands the pool nothing but the owner id, so
the post-state never depends on the hostname. -/
theorem C8_hostname_never_stored :
    (∀ s vm ip, lookupKey vm s.vm_to_ip = some ip →
      get_allocation s vm = Except.ok { ip := ip, vm_id := vm, hostname := none }) ∧
    (∀ s vm hn, (handlerAllocate s vm hn).2 = (allocate_ip s vm).2) ∧
    (∀ s vm hn r, (handlerAllocate s vm hn).1 = Except.ok r → r.hostname = hn) := by
  refine ⟨?_, ?_, ?_⟩
  · intro s vm ip h
    simp [get_allocation, h]
  · intro s vm hn
    rcases hres : allocate_ip s vm with ⟨r, s'⟩
    cases r <;> simp [handlerAllocate, hres]
  · intro s vm hn r h
    rcases hres : allocate_ip s vm with ⟨r2, s'⟩
    cases r2 with
    | ok ip =>
      simp [handlerAllocate, hres] at h
      rw [← h]
    | error e =>
      simp [handlerAllocate, hres] at h

/-- C8 witness: for an owner holding 10.0.0.2 (allocated through the HTTP
handler with a hostname supplied), getAllocation reports `hostname = none`. -/
theorem C8_hostname_never_stored_witness :
    get_allocation
      ⟨"10.0.0", "10.0.0.1", 2, 254, [("10.0.0.2", "vm-1")], [("vm-1", "10.0.0.2")], []⟩
      "vm-1"
      = Except.ok { ip := "10.0.0.2", vm_id := "vm-1", hostname := none } :=
  C8_hostname_never_stored.1
    ⟨"10.0.0", "10.0.0.1", 2, 254, [("10.0.0.2", "vm-1")], [("vm-1", "10.0.0.2")], []⟩
    "vm-1" "10.0.0.2" (by decide)

/-- C1 counterexample: in the spec's own scenario (fresh 10.0.0 pool,
allocate vm-1, allocate vm-2, releaseByOwner vm-1), the next allocate for
the fresh owner vm-3 returns 10.0.0.4, not the numerically lowest free
address 10.0.0.2, which is still in the free list at that moment (the
released address went to the BACK of the free vector). -/
theorem C1_counterexample :
    (allocate_ip (run (IpPool.new "10.0.0" "10.0.0.1")
        [Op.alloc "vm-1", Op.alloc "vm-2", Op.rel "vm-1"]) "vm-3").1
      = Except.ok "10.0.0.4" ∧
    (allocate_ip (run (IpPool.new "10.0.0" "10.0.0.1")
        [Op.alloc "vm-1", Op.alloc "vm-2", Op.rel "vm-1"]) "vm-3").1
      ≠ Except.ok "10.0.0.2" ∧
    "10.0.0.2" ∈ (run (IpPool.new "10.0.0" "10.0.0.1")
        [Op.alloc "vm-1", Op.alloc "vm-2", Op.rel "vm-1"]).available ∧
    lookupKey "vm-3" (run (IpPool.new "10.0.0" "10.0.0.1")
        [Op.alloc "vm-1", Op.alloc "vm-2", Op.rel "vm-1"]).vm_to_ip = none :=
  ⟨by decide, by decide, by decide, by decide⟩

/-- C1 amended: for an owner holding nothing and a non-empty free list,
allocate returns the FIRST element of the free list (its front), which is
the numerically lowest only while no release has pushed a lower address to
the back; in the spec's example the post-release allocate for vm-3 hence
returns 10.0.0.4. -/
theorem C1_amended_front_allocation :
    (∀ s vm ip rest, lookupKey vm s.vm_to_ip = none → s.available = ip :: rest →
      (allocate_ip s vm).1 = Except.ok ip ∧ (allocate_ip s vm).2.available = rest) ∧
    (allocate_ip (run (IpPool.new "10.0.0" "10.0.0.1")
        [Op.alloc "vm-1", Op.alloc "vm-2", Op.rel "vm-1"]) "vm-3").1
      = Except.ok "10.0.0.4" := by
  constructor
  · intro s vm ip rest h h2
    rw [allocate_ip_fresh h h2]
    exact ⟨rfl, rfl⟩
  · decide

/-- C1 amended witness: on the untouched fresh pool the front of the free
list is the lowest address 10.0.0.2, and allocate hands it out. -/
theorem C1_amended_front_allocation_witness :
    (allocate_ip (IpPool.new "10.0.0" "10.0.0.1") "vm-1").1 = Except.ok "10.0.0.2" ∧
    (allocate_ip (IpPool.new "10.0.0" "10.0.0.1") "vm-1").2.available
      = rangeList "10.0.0" 3 254 :=
  C1_amended_front_allocation.1 (IpPool.new "10.0.0" "10.0.0.1") "vm-1" "10.0.0.2"
    (rangeList "10.0.0" 3 254) (by decide) (by decide)

/-- C4 counterexample: 10.0.0.1 (the gateway) parses as an IPv4 literal
and is OUTSIDE the configured range 10.0.0.2 – 10.0.0.254, so by the claim
releaseByAddress must fail with InvalidAddress; the code instead answers
NotFound, because `is_valid_ip` only checks parse plus string prefix and
never the host-number range. -/
theorem C4_counterexample :
    parsesAsIpv4 "10.0.0.1" = true ∧
    "10.0.0.1" ∉ fullRange (IpPool.new "10.0.0" "10.0.0.1") ∧
    (release_ip_by_address (IpPool.new "10.0.0" "10.0.0.1") "10.0.0.1").1
      = Except.error IpPoolError.IpNotFound ∧
    (release_ip_by_address (IpPool.new "10.0.0" "10.0.0.1") "10.0.0.1").1
      ≠ Except.error IpPoolError.InvalidIp :=
  ⟨by decide, by decide, by decide, by decide⟩

/-- C4 amended: releaseByAddress fails with InvalidAddress exactly when the
address fails to parse as an IPv4 literal or does not start with the
configured network prefix followed by a dot (the host-number range 2–254 is
NOT checked); a prefix-valid address with no current allocation fails with
NotFound; in particular 300.1.1.1 gives InvalidAddress and 10.0.0.2 on a
fresh 10.0.0 pool gives NotFound. -/
theorem C4_amended_validation (s : IpPoolInner) (ip : String) :
    ((release_ip_by_address s ip).1 = Except.error IpPoolError.InvalidIp ↔
      is_valid_ip s.network ip = false) ∧
    (is_valid_ip s.network ip = true → lookupKey ip s.allocated = none →
      (release_ip_by_address s ip).1 = Except.error IpPoolError.IpNotFound) ∧
    (release_ip_by_address (IpPool.new "10.0.0" "10.0.0.1") "300.1.1.1").1
      = Except.error IpPoolError.InvalidIp ∧
    (release_ip_by_address (IpPool.new "10.0.0" "10.0.0.1") "10.0.0.2").1
      = Except.error IpPoolError.IpNotFound := by
  refine ⟨?_, ?_, by decide, by decide⟩
  · rcases hv : is_valid_ip s.network ip with _ | _
    · rw [release_addr_of_invalid hv]
      simp
    · constructor
      · intro h
        exfalso
        rcases hl : lookupKey ip s.allocated with _ | vm
        · rw [release_addr_of_none hv hl] at h
          simp at h
        · rw [release_addr_of_some hv hl] at h
          simp at h
      · intro h
        exact absurd h (by decide)
  · intro h1 h2
    rw [release_addr_of_none h1 h2]

/-- C4 amended witness: a parse-valid, prefix-valid, unallocated address on
a fresh pool gives NotFound. -/
theorem C4_amended_validation_witness :
    (release_ip_by_address (IpPool.new "10.0.0" "10.0.0.1") "10.0.0.9").1
      = Except.error IpPoolError.IpNotFound :=
  (C4_amended_validation (IpPool.new "10.0.0" "10.0.0.1") "10.0.0.9").2.1
    (by decide) (by decide)

/-- C7 counterexample: the stats object has no field named `usagePercent`;
the usage ratio is published under the key `usage`. -/
theorem C7_counterexample :
    "usagePercent" ∉ (get_stats (IpPool.new "10.0.0" "10.0.0.1")).map Prod.fst ∧
    "usage" ∈ (get_stats (IpPool.new "10.0.0" "10.0.0.1")).map Prod.fst :=
  ⟨by decide, by decide⟩

/-- C7 amended: for every reachable pool state, stats has exactly the
fields network, gateway, total, allocated, available and usage; total is
the fixed range size 253 (end - start + 1 with the hardcoded 2 and 254),
allocated and available are the live counts, the two counts always sum to
the range size, and usage is allocated/total*100 as an exact (unrounded)
ratio, modelled as a rational in place of the source's f64. -/
theorem C7_amended_stats (net gw : String) (ops : List Op) :
    (get_stats (run (IpPool.new net gw) ops)).map Prod.fst
      = ["network", "gateway", "total", "allocated", "available", "usage"] ∧
    jsonField "total" (get_stats (run (IpPool.new net gw) ops))
      = some (JVal.jnat 253) ∧
    jsonField "allocated" (get_stats (run (IpPool.new net gw) ops))
      = some (JVal.jnat (run (IpPool.new net gw) ops).allocated.length) ∧
    jsonField "available" (get_stats (run (IpPool.new net gw) ops))
      = some (JVal.jnat (run (IpPool.new net gw) ops).available.length) ∧
    jsonField "usage" (get_stats (run (IpPool.new net gw) ops))
      = some (JVal.jrat
          (((run (IpPool.new net gw) ops).allocated.length : ℚ) / 253 * 100)) ∧
    (run (IpPool.new net gw) ops).allocated.length
      + (run (IpPool.new net gw) ops).available.length = 253 := by
  obtain ⟨hn, hg, hstart, hend⟩ := run_config (IpPool.new net gw) ops
  have hstart2 : (run (IpPool.new net gw) ops).start = 2 := hstart
  have hend2 : (run (IpPool.new net gw) ops).«end» = 254 := hend
  have h253 : (run (IpPool.new net gw) ops).«end»
      - (run (IpPool.new net gw) ops).start + 1 = 253 := by
    rw [hstart2, hend2]
  refine ⟨rfl, ?_, rfl, rfl, ?_, ?_⟩
  · have hself : jsonField "total" (get_stats (run (IpPool.new net gw) ops))
        = some (JVal.jnat ((run (IpPool.new net gw) ops).«end»
          - (run (IpPool.new net gw) ops).start + 1)) := rfl
    rw [hself, h253]
  · have hself : jsonField "usage" (get_stats (run (IpPool.new net gw) ops))
        = some (JVal.jrat
          (((run (IpPool.new net gw) ops).allocated.length : ℚ)
            / (((run (IpPool.new net gw) ops).«end»
              - (run (IpPool.new net gw) ops).start + 1 : Nat) : ℚ) * 100)) := rfl
    rw [hself, h253]
    norm_num
  · have hfull : (fullRange (run (IpPool.new net gw) ops)).length = 253 := by
      unfold fullRange rangeList
      rw [List.length_map, List.length_range', hstart2, hend2]
    have hlen := (inv_reach net gw ops).perm.length_eq
    rw [List.length_append, hfull, keysOf, List.length_map] at hlen
    omega

/-! Pool exhaustion (claim C5). -/

theorem lookupKey_allocate_isSome {s : IpPoolInner} {vm v : String}
    (h : (lookupKey v s.vm_to_ip).isSome) :
    (lookupKey v (allocate_ip s vm).2.vm_to_ip).isSome := by
  rcases hl : lookupKey vm s.vm_to_ip with _ | ip
  · rcases h2 : s.available with _ | ⟨ip, rest⟩
    · rw [allocate_ip_of_empty hl h2]
      exact h
    · rw [allocate_ip_fresh hl h2]
      dsimp only
      rw [lookupKey_insertKey]
      by_cases hv : v = vm
      · rw [if_pos hv]
        rfl
      · rw [if_neg hv]
        exact h
  · rw [allocate_ip_of_mem hl]
    exact h

theorem lookupKey_allocate_none {s : IpPoolInner} {vm v : String}
    (hne : v ≠ vm) (h : lookupKey v s.vm_to_ip = none) :
    lookupKey v (allocate_ip s vm).2.vm_to_ip = none := by
  rcases hl : lookupKey vm s.vm_to_ip with _ | ip
  · rcases h2 : s.available with _ | ⟨ip, rest⟩
    · rw [allocate_ip_of_empty hl h2]
      exact h
    · rw [allocate_ip_fresh hl h2]
      dsimp only
      rw [lookupKey_insertKey, if_neg hne]
      exact h
  · rw [allocate_ip_of_mem hl]
    exact h

theorem allocRun_isSome {owners : List String} {s : IpPoolInner} {v : String}
    (h : (lookupKey v s.vm_to_ip).isSome) :
    (lookupKey v (allocRun s owners).vm_to_ip).isSome := by
  induction owners generalizing s with
  | nil => exact h
  | cons w t ih => exact ih (lookupKey_allocate_isSome h)

theorem allocRun_spec (owners : List String) : ∀ (s : IpPoolInner), owners.Nodup →
    (∀ v ∈ owners, lookupKey v s.vm_to_ip = none) →
    owners.length ≤ s.available.length →
    (allocRun s owners).available.length = s.available.length - owners.length ∧
    (∀ v ∈ owners, (lookupKey v (allocRun s owners).vm_to_ip).isSome) ∧
    (∀ v, v ∉ owners → lookupKey v s.vm_to_ip = none →
      lookupKey v (allocRun s owners).vm_to_ip = none) := by
  induction owners with
  | nil =>
    intro s _ _ _
    exact ⟨by simp [allocRun], by simp, fun v _ h => h⟩
  | cons w t ih =>
    intro s hnd hfresh hlen
    have hw : lookupKey w s.vm_to_ip = none := hfresh w (List.mem_cons_self _ _)
    rcases h2 : s.available with _ | ⟨ip, rest⟩
    · rw [h2] at hlen
      simp at hlen
    · have hstep := allocate_ip_fresh hw h2
      have hrunstep : allocRun s (w :: t) = allocRun (allocate_ip s w).2 t := rfl
      have hwnotint : w ∉ t := (List.nodup_cons.mp hnd).1
      have hndt : t.Nodup := (List.nodup_cons.mp hnd).2
      have hfresht : ∀ v ∈ t, lookupKey v (allocate_ip s w).2.vm_to_ip = none := by
        intro v hv
        exact lookupKey_allocate_none (fun he => hwnotint (he ▸ hv))
          (hfresh v (List.mem_cons_of_mem _ hv))
      have havail : (allocate_ip s w).2.available = rest := by rw [hstep]
      have hlent : t.length ≤ (allocate_ip s w).2.available.length := by
        rw [havail]
        rw [h2] at hlen
        simp only [List.length_cons] at hlen
        omega
      obtain ⟨g1, g2, g3⟩ := ih (allocate_ip s w).2 hndt hfresht hlent
      refine ⟨?_, ?_, ?_⟩
      · rw [hrunstep, g1, havail]
        simp [List.length_cons, Nat.succ_sub_succ]
      · intro v hv
        rcases List.mem_cons.mp hv with rfl | hvt
        · rw [hrunstep]
          apply allocRun_isSome
          rw [hstep]
          dsimp only
          rw [lookupKey_insertKey, if_pos rfl]
          rfl
        · exact g2 v hvt
      · intro v hv hnone
        have hvw : v ≠ w := fun he => hv (he ▸ List.mem_cons_self _ _)
        have hvt : v ∉ t := fun ht => hv (List.mem_cons_of_mem _ ht)
        exact g3 v hvt (lookupKey_allocate_none hvw hnone)

/-- C5: a fresh pool (default host range 2–254) holds exactly 253 free
addresses and reports total 253; allocating 253 distinct owners empties the
free list (each of the 253 owners really holds an address afterwards), and
a 254th allocate for a new owner fails with NoAvailableAddresses. -/
theorem C5_default_range_exhaustion (net gw : String) (owners : List String)
    (vm : String) (hnd : owners.Nodup) (hlen : owners.length = 253)
    (hvm : vm ∉ owners) :
    (IpPool.new net gw).available.length = 253 ∧
    jsonField "total" (get_stats (IpPool.new net gw)) = some (JVal.jnat 253) ∧
    (allocRun (IpPool.new net gw) owners).available = [] ∧
    (∀ v ∈ owners,
      (lookupKey v (allocRun (IpPool.new net gw) owners).vm_to_ip).isSome) ∧
    (allocate_ip (allocRun (IpPool.new net gw) owners) vm).1
      = Except.error IpPoolError.NoAvailableIps := by
  have hlen0 : (IpPool.new net gw).available.length = 253 := by
    show (rangeList net 2 254).length = 253
    rw [rangeList, List.length_map, List.length_range']
  have hfresh : ∀ v ∈ owners, lookupKey v (IpPool.new net gw).vm_to_ip = none :=
    fun v _ => rfl
  obtain ⟨g1, g2, g3⟩ := allocRun_spec owners (IpPool.new net gw) hnd hfresh
    (le_of_eq (hlen.trans hlen0.symm))
  have hempty : (allocRun (IpPool.new net gw) owners).available = [] := by
    rw [← List.length_eq_zero, g1, hlen0, hlen]
  have hvmnone : lookupKey vm (allocRun (IpPool.new net gw) owners).vm_to_ip = none :=
    g3 vm hvm rfl
  refine ⟨hlen0, rfl, hempty, g2, ?_⟩
  rw [allocate_ip_of_empty hvmnone hempty]

/-- C5 witness: the concrete owners 0, 1, …, 252 exhaust the pool and the
owner `extra` is then refused. -/
theorem C5_default_range_exhaustion_witness :
    (allocRun (IpPool.new "10.0.0" "10.0.0.1")
      ((List.range 253).map (fun i => toString i))).available = [] ∧
    (allocate_ip (allocRun (IpPool.new "10.0.0" "10.0.0.1")
      ((List.range 253).map (fun i => toString i))) "extra").1
      = Except.error IpPoolError.NoAvailableIps := by
  have h := C5_default_range_exhaustion "10.0.0" "10.0.0.1"
    ((List.range 253).map (fun i => toString i)) "extra"
    nodup_toString_range253 (by rw [List.length_map, List.length_range]) (by decide)
  exact ⟨h.2.2.1, h.2.2.2.2⟩

/-! First-in-first-out behavior of the free list (claim C9). -/

theorem alloc_head_not_later {s : IpPoolInner} {a b vm : String} (hs : Inv s)
    (hab : [a, b].Sublist s.available)
    (hres : (allocate_ip s vm).1 = Except.ok b) : False := by
  have hbmem : b ∈ s.available := hab.subset (by simp)
  rcases hl : lookupKey vm s.vm_to_ip with _ | ip
  · rcases h2 : s.available with _ | ⟨ip, rest⟩
    · rw [h2] at hab
      simp at hab
    · have hfr := allocate_ip_fresh hl h2
      rw [hfr] at hres
      simp at hres
      rw [hres] at h2
      have hnd : s.available.Nodup := hs.nodupAvailable
      rw [h2] at hnd hab
      have hbrest : b ∉ rest := (List.nodup_cons.mp hnd).1
      cases hab with
      | cons _ h' => exact hbrest (h'.subset (by simp))
      | cons₂ _ h' => exact hbrest (h'.subset (by simp))
  · rw [allocate_ip_of_mem hl] at hres
    simp at hres
    rw [hres] at hl
    exact hs.not_mem_keys hbmem (mem_keys_of_lookup (hs.inv2 vm b hl))

theorem sublist_applyOp {s : IpPoolInner} {a b : String} {o : Op}
    (hab : [a, b].Sublist s.available) (ho : o ≠ Op.reset)
    (hna : ∀ vm, o = Op.alloc vm → (allocate_ip s vm).1 ≠ Except.ok a) :
    [a, b].Sublist (applyOp s o).available := by
  cases o with
  | reset => exact absurd rfl ho
  | alloc vm =>
    rcases hl : lookupKey vm s.vm_to_ip with _ | ip
    · rcases h2 : s.available with _ | ⟨ip, rest⟩
      · simp only [applyOp]
        rw [allocate_ip_of_empty hl h2]
        exact hab
      · have hfr := allocate_ip_fresh hl h2
        have hne : ip ≠ a := fun he => hna vm rfl (by rw [hfr, he])
        simp only [applyOp]
        rw [hfr]
        dsimp only
        rw [h2] at hab
        cases hab with
        | cons _ h' => exact h'
        | cons₂ _ h' => exact absurd rfl hne
    · simp only [applyOp]
      rw [allocate_ip_of_mem hl]
      exact hab
  | rel vm =>
    rcases hl : lookupKey vm s.vm_to_ip with _ | ip
    · simp only [applyOp]
      rw [release_ip_of_none hl]
      exact hab
    · simp only [applyOp]
      rw [release_ip_of_some hl]
      dsimp only
      exact hab.trans (List.sublist_append_left _ _)
  | relAddr ip =>
    rcases hv : is_valid_ip s.network ip with _ | _
    · simp only [applyOp]
      rw [release_addr_of_invalid hv]
      exact hab
    · rcases hl : lookupKey ip s.allocated with _ | vm
      · simp only [applyOp]
        rw [release_addr_of_none hv hl]
        exact hab
      · simp only [applyOp]
        rw [release_addr_of_some hv hl]
        dsimp only
        exact hab.trans (List.sublist_append_left _ _)

theorem fifo_main (ops : List Op) : ∀ (s : IpPoolInner) (a b : String), Inv s →
    [a, b].Sublist s.available → (∀ o ∈ ops, o ≠ Op.reset) →
    allocReturnsIn s ops b → allocReturnsIn s ops a := by
  induction ops with
  | nil =>
    rintro s a b _ _ _ ⟨pre, vm, post, hsplit, _⟩
    cases pre <;> simp at hsplit
  | cons o rest ih =>
    rintro s a b hs hab hnr ⟨pre, vm, post, hsplit, hres⟩
    cases pre with
    | nil =>
      simp only [List.nil_append] at hsplit
      injection hsplit with ho hrest
      subst ho
      exact (alloc_head_not_later hs hab hres).elim
    | cons o' pre' =>
      simp only [List.cons_append] at hsplit
      injection hsplit with ho hrest
      subst ho
      by_cases hc : ∃ vm', o = Op.alloc vm' ∧ (allocate_ip s vm').1 = Except.ok a
      · obtain ⟨vm', hoeq, hres'⟩ := hc
        refine ⟨[], vm', rest, ?_, ?_⟩
        · rw [hoeq, List.nil_append]
        · exact hres'
      · have hna : ∀ vm', o = Op.alloc vm' → (allocate_ip s vm').1 ≠ Except.ok a :=
          fun vm' h1 h2 => hc ⟨vm', h1, h2⟩
        have honr : o ≠ Op.reset := hnr o (List.mem_cons_self _ _)
        have hab' := sublist_applyOp hab honr hna
        have hs' := inv_applyOp hs o
        have hnr' : ∀ o2 ∈ rest, o2 ≠ Op.reset :=
          fun o2 h2 => hnr o2 (List.mem_cons_of_mem _ h2)
        have hret : allocReturnsIn (applyOp s o) rest b := ⟨pre', vm, post, hrest, hres⟩
        obtain ⟨pre2, vm2, post2, hsp2, hr2⟩ := ih (applyOp s o) a b hs' hab' hnr' hret
        exact ⟨o :: pre2, vm2, post2, by rw [List.cons_append, hsp2], hr2⟩

/-- C9: both release operations append the released address at the END of
the free list, allocate for a fresh owner takes the FRONT, and consequently
(in any reachable state, for any reset-free continuation) an address b that
sits behind an address a in the free list can only be handed out after some
allocation has handed out a: the free list is a first-in-first-out queue. -/
theorem C9_fifo_free_list :
    (∀ s vm ip, lookupKey vm s.vm_to_ip = some ip →
      (release_ip s vm).2.available = s.available ++ [ip]) ∧
    (∀ s ip vm, is_valid_ip s.network ip = true → lookupKey ip s.allocated = some vm →
      (release_ip_by_address s ip).2.available = s.available ++ [ip]) ∧
    (∀ s vm ip rest, lookupKey vm s.vm_to_ip = none → s.available = ip :: rest →
      (allocate_ip s vm).1 = Except.ok ip ∧ (allocate_ip s vm).2.available = rest) ∧
    (∀ net gw ops0 ops a b,
      [a, b].Sublist (run (IpPool.new net gw) ops0).available →
      (∀ o ∈ ops, o ≠ Op.reset) →
      allocReturnsIn (run (IpPool.new net gw) ops0) ops b →
      allocReturnsIn (run (IpPool.new net gw) ops0) ops a) := by
  refine ⟨?_, ?_, ?_, ?_⟩
  · intro s vm ip h
    rw [release_ip_of_some h]
  · intro s ip vm hv hl
    rw [release_addr_of_some hv hl]
  · intro s vm ip rest h h2
    rw [allocate_ip_fresh h h2]
    exact ⟨rfl, rfl⟩
  · intro net gw ops0 ops a b hab hnr hret
    exact fifo_main ops (run (IpPool.new net gw) ops0) a b
      (inv_reach net gw ops0) hab hnr hret

/-- C9 witness: on the fresh pool, since 10.0.0.3 is handed out by the
second of two allocations, some allocation among them must have handed out
10.0.0.2, which sits in front of it in the free list. -/
theorem C9_fifo_free_list_witness :
    allocReturnsIn (run (IpPool.new "10.0.0" "10.0.0.1") [])
      [Op.alloc "w1", Op.alloc "w2"] "10.0.0.2" :=
  C9_fifo_free_list.2.2.2 "10.0.0" "10.0.0.1" [] [Op.alloc "w1", Op.alloc "w2"]
    "10.0.0.2" "10.0.0.3" (by decide) (by decide)
    ⟨[Op.alloc "w1"], "w2", [], rfl, by decide⟩

end IpPoolModel
